import Mathlib

/-!
Verification of the classifier-guided conditional diffusion trainer
(`src/classifier_guided_conditional_trainer.py`) against its specification.

The trainer couples a frozen diffusion denoiser with an online segmentation
network: per training example it runs one unconditional reverse pass, then a
guided reverse trajectory of `T` steps.  Each step derives a clean-image
estimate, updates the segmentation network once, computes a guidance gradient
on a detached copy of the estimate, and forms the next trajectory state.

The repository ships the trainer itself; the `diffusion_solver` module
(`get_beta_schedule`, `DiffusionSampler`) and the network/loss collaborators
are external.  The trainer is embedded line-by-line below; the missing sampler
operations are modelled from the specification and are marked as such.
Machine floats are embedded as rationals; the stochastic draws
(`torch.randn`) and the externally defined networks, losses, automatic
differentiation and optimizer are inputs (oracle functions) of the embedding.
-/

/-- A dense numeric array: a shape (list of dimension sizes) together with the
flattened data.  Values are rationals (the embedding of machine floats). -/
structure Tensor where
  shape : List ℕ
  data : List ℚ
deriving DecidableEq

/-- Pointwise unary operation on a tensor. -/
def mapT (f : ℚ → ℚ) (x : Tensor) : Tensor :=
  ⟨x.shape, x.data.map f⟩

/-- Pointwise binary operation on tensors (shape taken from the left operand,
as the source only combines same-shaped tensors). -/
def zipT (f : ℚ → ℚ → ℚ) (x y : Tensor) : Tensor :=
  ⟨x.shape, List.zipWith f x.data y.data⟩

/-- Elementwise tensor addition. -/
def addT : Tensor → Tensor → Tensor := zipT (· + ·)

/-- Elementwise tensor subtraction. -/
def subT : Tensor → Tensor → Tensor := zipT (· - ·)

/-- Scalar multiplication of a tensor. -/
def smulT (c : ℚ) : Tensor → Tensor := mapT (fun v => c * v)

/-- Embedding of `torch.clamp(x, lo, hi)`: every entry is moved into
`[lo, hi]`. -/
def clampT (lo hi : ℚ) : Tensor → Tensor := mapT (fun v => min (max v lo) hi)

/-- The spatial shape of a tensor: its trailing two dimensions (height and
width), as used when comparing a label map against an image batch. -/
def spatialShape (x : Tensor) : List ℕ :=
  x.shape.drop (x.shape.length - 2)

/-- Error taxonomy of the specification: bad schedule name, label/image shape
disagreement, non-finite loss or gradient, and the failed parameter-staleness
assertion. -/
inductive TrainError where
  | UnsupportedScheduleKind
  | ShapeMismatch
  | NonFiniteLoss
  | StalledUpdate
deriving DecidableEq

/-- Diffusion schedule hyperparameters: `beta_start`, `beta_end` and the
number of timesteps `T` (source configuration lines 43-45). -/
structure Sched where
  betaStart : ℚ
  betaEnd : ℚ
  T : ℕ
deriving DecidableEq

/-- Modelled from the spec: `diffusion_solver.get_beta_schedule` is absent
from the repository sources.  The linear policy is `np.linspace(beta_start,
beta_end, T)`: entry `t` is `beta_start + t * (beta_end - beta_start) /
(T - 1)` (for `T = 1` the division by zero yields the constant `beta_start`,
matching `np.linspace` with one point). -/
def betafun (σ : Sched) (t : ℕ) : ℚ :=
  σ.betaStart + (t : ℚ) * ((σ.betaEnd - σ.betaStart) / ((σ.T : ℚ) - 1))

/-- Modelled from the spec: `get_beta_schedule` produces the `beta` sequence
of length `T` for the linear policy and fails with `UnsupportedScheduleKind`
for unrecognized policy names (spec 4.1). -/
def get_beta_schedule (kind : String) (bs be : ℚ) (T : ℕ) :
    Except TrainError (List ℚ) :=
  if kind = "linear" then
    Except.ok ((List.range T).map (betafun ⟨bs, be, T⟩))
  else
    Except.error TrainError.UnsupportedScheduleKind

/-- `alpha[t] = 1 - beta[t]` (spec 3, Noise Schedule). -/
def alphafun (σ : Sched) (t : ℕ) : ℚ := 1 - betafun σ t

/-- `alpha_bar[t]`, the cumulative product of `alpha[s]` for `s ≤ t`. -/
def alphaBar (σ : Sched) : ℕ → ℚ
  | 0 => 1 - betafun σ 0
  | t + 1 => alphaBar σ t * (1 - betafun σ (t + 1))

/-- `alpha_bar[t-1]` with the convention `alpha_bar[-1] = 1`, used by the
posterior variance of the reverse transition. -/
def alphaBarPrev (σ : Sched) (t : ℕ) : ℚ :=
  if t = 0 then 1 else alphaBar σ (t - 1)

/-- Modelled from the spec: the posterior variance of the reverse transition,
`beta_tilde[t] = beta[t] * (1 - alpha_bar[t-1]) / (1 - alpha_bar[t])` (spec
glossary, "Posterior variance / mean").  With `alpha_bar[-1] = 1` this is `0`
at `t = 0`, making the terminal reverse step deterministic (spec 4.2.3). -/
def betaTilde (σ : Sched) (t : ℕ) : ℚ :=
  betafun σ t * (1 - alphaBarPrev σ t) / (1 - alphaBar σ t)

/-- The external collaborators of the trainer, passed as oracle functions:
the frozen denoiser network (`dpm_model`, parametrized by its parameter
list), the combined segmentation loss `CE_loss(pred, y) + DSC_loss(pred_y, y)`
evaluated at given segmentation parameters, the automatic-differentiation
gradients of that loss with respect to the parameters and with respect to the
input image, the Adam update, and the float square root used by the sampler
coefficients. -/
structure Oracles where
  den : List Tensor → Tensor → ℕ → Tensor
  lossFn : List Tensor → Tensor → Tensor → ℚ
  gradTheta : List Tensor → Tensor → Tensor → List Tensor
  gradX : List Tensor → Tensor → Tensor → Tensor
  optStep : List Tensor → List Tensor → List Tensor
  sqrtA : ℚ → ℚ

/-- Modelled from the spec: `DiffusionSampler.reverse_skip` is absent from
the repository sources.  It applies the denoiser once and solves the forward
noising equation for the implied clean image (spec 4.2.2):
`x0_hat = (x_t - sqrt(1 - alpha_bar[t]) * eps_hat) / sqrt(alpha_bar[t])`. -/
def reverse_skip (O : Oracles) (σ : Sched) (dpm : List Tensor)
    (x : Tensor) (t : ℕ) : Tensor :=
  smulT (1 / O.sqrtA (alphaBar σ t))
    (subT x (smulT (O.sqrtA (1 - alphaBar σ t)) (O.den dpm x t)))

/-- Modelled from the spec: the posterior mean of `p(x_{t-1} | x_t)` under
the reverse Markov model (spec glossary), in its closed form from the noise
schedule:
`mean = (x_t - (beta[t] / sqrt(1 - alpha_bar[t])) * eps_hat) / sqrt(alpha[t])`. -/
def posteriorMean (O : Oracles) (σ : Sched) (dpm : List Tensor)
    (x : Tensor) (t : ℕ) : Tensor :=
  smulT (1 / O.sqrtA (alphafun σ t))
    (subT x (smulT (betafun σ t / O.sqrtA (1 - alphaBar σ t)) (O.den dpm x t)))

/-- Modelled from the spec: the posterior standard deviation,
`std = sqrt(beta_tilde[t])` (spec 4.2.3; at `t = 0` the variance is `0`). -/
def posteriorStd (O : Oracles) (σ : Sched) (t : ℕ) : ℚ :=
  O.sqrtA (betaTilde σ t)

/-- Modelled from the spec: `DiffusionSampler.reverse_sample_typeII` is
absent from the repository sources.  It returns the decomposed one-step
reverse transition `(mean, std, noise)` without combining them (spec 4.2.3);
the standard-normal draw is an input `ε` of the embedding. -/
def reverse_sample_typeII (σ : Sched) (O : Oracles) (dpm : List Tensor)
    (x : Tensor) (t : ℕ) (ε : Tensor) : Tensor × ℚ × Tensor :=
  (posteriorMean O σ dpm x t, posteriorStd O σ t, ε)

/-- Modelled from the spec: `DiffusionSampler.reverse_iterate` is absent from
the repository sources.  Starting at timestep `t_start` it repeatedly applies
the single-step reverse transition down to timestep `0`, resampling noise at
every step except the terminal one, whose noise term is zero (spec 4.2.1).
The per-step standard-normal draws are the input stream `noise`. -/
def reverse_iterate (O : Oracles) (σ : Sched) (dpm : List Tensor)
    (noise : ℕ → Tensor) : ℕ → Tensor → Tensor
  | 0, x => posteriorMean O σ dpm x 0
  | t + 1, x =>
      reverse_iterate O σ dpm noise t
        (addT (posteriorMean O σ dpm x (t + 1))
          (smulT (posteriorStd O σ (t + 1)) (noise (t + 1))))

/-- Mutable state of the segmentation model together with its optimizer:
the parameter tensors (in `named_parameters()` order) and their gradient
buffers (`param.grad`). -/
structure SegState where
  params : List Tensor
  gradBuf : List Tensor
deriving DecidableEq

/-- Zeroed gradient buffers of the given parameter list
(`optimizer.zero_grad()`). -/
def zerosLike (ps : List Tensor) : List Tensor :=
  ps.map (mapT (fun _ => 0))

/-- Accumulation of a fresh gradient into the gradient buffers, as
`loss.backward()` adds into `param.grad`. -/
def addG : List Tensor → List Tensor → List Tensor :=
  List.zipWith addT

/-- Per-timestep record of the guided loop (trainer lines 90-127): the
timestep, the consumed trajectory state, the clamped clean-image estimate fed
to the segmentation network, the components of the one-step reverse
transition, the guidance gradient, the produced trajectory state, the
segmentation parameters and gradient buffers after the update, the denoiser
parameters the step read, and the reported loss value. -/
structure StepLog where
  t : ℕ
  xIn : Tensor
  x0fed : Tensor
  mean : Tensor
  std : ℚ
  grad : Tensor
  epsUsed : Tensor
  xOut : Tensor
  paramsAfter : List Tensor
  bufAfter : List Tensor
  dpmUsed : List Tensor
  lossVal : ℚ
deriving DecidableEq

/-- One iteration of the guided loop, embedded line-by-line from trainer
lines 91-127.  `optimizer.zero_grad()` clears the gradient buffers; the
clean-image estimate is obtained by `reverse_skip` and clamped to `[0, 1]`;
the segmentation loss is backpropagated into the buffers and one optimizer
step is taken; the estimate is then detached into a fresh leaf (`clone().
detach().requires_grad_(True)` — in this value-level embedding the leaf
carries the same values and no history), the loss is re-run with the updated
parameters, and `torch.autograd.grad(-strength * loss, x_in)` is embedded as
`-strength` times the input gradient of the loss (automatic differentiation
is linear in the differentiated scalar); finally one `reverse_sample_typeII`
call at `(x_t, t)` provides `(mean, std, noise)` and the next state is
`(mean + gradient) + std * noise` (the `.cpu()` device move is the identity
on values). -/
def guidanceStep (O : Oracles) (σ : Sched) (strength : ℚ) (dpm : List Tensor)
    (st : SegState) (x : Tensor) (t : ℕ) (y : Tensor) (ε : Tensor) :
    SegState × Tensor × StepLog :=
  let buf0 := zerosLike st.params
  let x0t := clampT 0 1 (reverse_skip O σ dpm x t)
  let _loss1 := O.lossFn st.params x0t y
  let buf1 := addG buf0 (O.gradTheta st.params x0t y)
  let params1 := O.optStep st.params buf1
  let xin := x0t
  let loss2 := O.lossFn params1 xin y
  let gradient := smulT (-strength) (O.gradX params1 xin y)
  let msd := reverse_sample_typeII σ O dpm x t ε
  let meanShift := addT msd.1 gradient
  let xNext := addT meanShift (smulT msd.2.1 msd.2.2)
  (⟨params1, buf1⟩, xNext,
    { t := t, xIn := x, x0fed := x0t, mean := msd.1, std := msd.2.1,
      grad := gradient, epsUsed := msd.2.2, xOut := xNext,
      paramsAfter := params1, bufAfter := buf1, dpmUsed := dpm,
      lossVal := loss2 })

/-- The guided-step region rendered with a fallible result type.  The source
(trainer lines 91-127) contains no explicit validation and no error exit, so
the embedding returns `ok` on every input; the specification's `ShapeMismatch`
and `NonFiniteLoss` error conditions have no counterpart in the code. -/
def guidanceStepE (O : Oracles) (σ : Sched) (strength : ℚ) (dpm : List Tensor)
    (st : SegState) (x : Tensor) (t : ℕ) (y : Tensor) (ε : Tensor) :
    Except TrainError (SegState × Tensor × StepLog) :=
  Except.ok (guidanceStep O σ strength dpm st x t y ε)

/-- The per-timestep update checker (trainer lines 130-131): for every named
parameter, `assert not torch.allclose(param, initial_state[name])`.  The
float tolerance of `allclose` is embedded as exact equality of the rational
values; the assertion passes exactly when every parameter differs from its
counterpart in the snapshot. -/
def allDifferB (ps qs : List Tensor) : Bool :=
  (ps.zip qs).all (fun pq => decide (pq.1 ≠ pq.2))

/-- The guided loop of trainer lines 90-131 over a list of timesteps: run one
`guidanceStep`, then perform the update-checker assertion against the fixed
`snapshot` (a failed assertion aborts the run with `StalledUpdate`), then
continue with the produced state.  Returns the final segmentation state, the
final trajectory state and the per-step logs. -/
def runSteps (O : Oracles) (σ : Sched) (strength : ℚ) (snapshot : List Tensor)
    (dpm : List Tensor) (y : Tensor) (gN : ℕ → Tensor) :
    SegState → Tensor → List ℕ →
    Except TrainError (SegState × Tensor × List StepLog)
  | st, x, [] => Except.ok (st, x, [])
  | st, x, t :: ts =>
      let r := guidanceStep O σ strength dpm st x t y (gN t)
      if allDifferB r.1.params snapshot then
        match runSteps O σ strength snapshot dpm y gN r.1 r.2.1 ts with
        | Except.error e => Except.error e
        | Except.ok (st', x', ls) => Except.ok (st', x', r.2.2 :: ls)
      else
        Except.error TrainError.StalledUpdate

/-- The network state owned by the training loop: the frozen diffusion
model's parameters and the mutable segmentation state. -/
structure TrainState where
  dpmParams : List Tensor
  seg : SegState
deriving DecidableEq

/-- One training example as consumed by the loop: the label map `y` (the
image itself is never read by this trainer), the standard-Gaussian draw
`x_T = torch.randn(...)` (trainer line 79), and the per-step noise streams of
the unconditional pass and of the `reverse_sample_typeII` calls. -/
structure Example where
  y : Tensor
  xT : Tensor
  uncNoise : ℕ → Tensor
  gNoise : ℕ → Tensor

/-- Per-example record: the segmentation parameters at the start of the
trajectory, the sampled `x_T`, the clamped unconditional estimate, the
per-step logs and the clamped final conditional output. -/
structure ExLog where
  startParams : List Tensor
  xT : Tensor
  uncond : Tensor
  steps : List StepLog
  final : Tensor
deriving DecidableEq

/-- One full trajectory for one example (trainer lines 79-134): the
unconditional reverse pass from `x_T` at `t_start = T - 1`, clamped to
`[-1, 1]` (line 84); then the guided loop over `range(0, T)[::-1]`, i.e. the
timesteps `T-1, ..., 0` (line 90); finally the conditional output is the last
trajectory state clamped to `[-1, 1]` (line 134). -/
def processExample (O : Oracles) (σ : Sched) (strength : ℚ)
    (snapshot : List Tensor) (st : TrainState) (ex : Example) :
    Except TrainError (TrainState × ExLog) :=
  let uncond :=
    clampT (-1) 1 (reverse_iterate O σ st.dpmParams ex.uncNoise (σ.T - 1) ex.xT)
  match runSteps O σ strength snapshot st.dpmParams ex.y ex.gNoise st.seg ex.xT
      ((List.range σ.T).reverse) with
  | Except.error e => Except.error e
  | Except.ok (seg', xFin, logs) =>
      Except.ok (⟨st.dpmParams, seg'⟩,
        { startParams := st.seg.params, xT := ex.xT, uncond := uncond,
          steps := logs, final := clampT (-1) 1 xFin })

/-- The inner data loop of one epoch (trainer line 75): process each example
in order, threading the training state. -/
def runExamples (O : Oracles) (σ : Sched) (strength : ℚ)
    (snapshot : List Tensor) :
    TrainState → List Example → Except TrainError (TrainState × List ExLog)
  | st, [] => Except.ok (st, [])
  | st, ex :: exs =>
      match processExample O σ strength snapshot st ex with
      | Except.error e => Except.error e
      | Except.ok (st', lg) =>
          match runExamples O σ strength snapshot st' exs with
          | Except.error e => Except.error e
          | Except.ok (st'', lgs) => Except.ok (st'', lg :: lgs)

/-- The epoch loop (trainer line 74): run the data loop `nEpoch` times. -/
def runEpochs (O : Oracles) (σ : Sched) (strength : ℚ)
    (snapshot : List Tensor) (data : List Example) :
    TrainState → ℕ → Except TrainError (TrainState × List ExLog)
  | st, 0 => Except.ok (st, [])
  | st, n + 1 =>
      match runExamples O σ strength snapshot st data with
      | Except.error e => Except.error e
      | Except.ok (st', lgs) =>
          match runEpochs O σ strength snapshot data st' n with
          | Except.error e => Except.error e
          | Except.ok (st'', lgs') => Except.ok (st'', lgs ++ lgs')

/-- The whole training run: the staleness snapshot is taken once, from the
loaded segmentation parameters, before any update (trainer line 57), and the
epoch loop runs against it. -/
def runTraining (O : Oracles) (σ : Sched) (strength : ℚ) (nEpoch : ℕ)
    (data : List Example) (st0 : TrainState) :
    Except TrainError (TrainState × List ExLog) :=
  runEpochs O σ strength st0.seg.params data st0 nEpoch

/-- Boolean range check: every entry of the tensor lies in `[lo, hi]`. -/
def inRangeB (lo hi : ℚ) (x : Tensor) : Bool :=
  x.data.all (fun v => decide (lo ≤ v) && decide (v ≤ hi))

/-- Boolean trajectory-chaining check: the first log consumed the given
state, and every later log consumed exactly the state produced by its
predecessor. -/
def chainB : Tensor → List StepLog → Bool
  | _, [] => true
  | x, l :: ls => decide (l.xIn = x) && chainB l.xOut ls

theorem inRangeB_clampT {lo hi : ℚ} (h : lo ≤ hi) (x : Tensor) :
    inRangeB lo hi (clampT lo hi x) = true := by
  simp only [inRangeB, clampT, mapT, List.all_eq_true, List.mem_map,
    Bool.and_eq_true, decide_eq_true_eq]
  rintro v ⟨u, -, rfl⟩
  exact ⟨le_min (le_max_right u lo) h, min_le_right _ _⟩

theorem guidanceStep_log_t (O : Oracles) (σ : Sched) (s : ℚ)
    (dpm : List Tensor) (st : SegState) (x : Tensor) (t : ℕ) (y ε : Tensor) :
    (guidanceStep O σ s dpm st x t y ε).2.2.t = t := rfl

theorem guidanceStep_log_xIn (O : Oracles) (σ : Sched) (s : ℚ)
    (dpm : List Tensor) (st : SegState) (x : Tensor) (t : ℕ) (y ε : Tensor) :
    (guidanceStep O σ s dpm st x t y ε).2.2.xIn = x := rfl

theorem guidanceStep_log_x0fed (O : Oracles) (σ : Sched) (s : ℚ)
    (dpm : List Tensor) (st : SegState) (x : Tensor) (t : ℕ) (y ε : Tensor) :
    (guidanceStep O σ s dpm st x t y ε).2.2.x0fed
      = clampT 0 1 (reverse_skip O σ dpm x t) := rfl

theorem guidanceStep_log_formula (O : Oracles) (σ : Sched) (s : ℚ)
    (dpm : List Tensor) (st : SegState) (x : Tensor) (t : ℕ) (y ε : Tensor) :
    (guidanceStep O σ s dpm st x t y ε).2.2.xOut
      = addT (addT (guidanceStep O σ s dpm st x t y ε).2.2.mean
                   (guidanceStep O σ s dpm st x t y ε).2.2.grad)
             (smulT (guidanceStep O σ s dpm st x t y ε).2.2.std
                    (guidanceStep O σ s dpm st x t y ε).2.2.epsUsed) := rfl

theorem guidanceStep_log_paramsAfter (O : Oracles) (σ : Sched) (s : ℚ)
    (dpm : List Tensor) (st : SegState) (x : Tensor) (t : ℕ) (y ε : Tensor) :
    (guidanceStep O σ s dpm st x t y ε).2.2.paramsAfter
      = (guidanceStep O σ s dpm st x t y ε).1.params := rfl

theorem guidanceStep_log_dpmUsed (O : Oracles) (σ : Sched) (s : ℚ)
    (dpm : List Tensor) (st : SegState) (x : Tensor) (t : ℕ) (y ε : Tensor) :
    (guidanceStep O σ s dpm st x t y ε).2.2.dpmUsed = dpm := rfl

theorem guidanceStep_log_xOut (O : Oracles) (σ : Sched) (s : ℚ)
    (dpm : List Tensor) (st : SegState) (x : Tensor) (t : ℕ) (y ε : Tensor) :
    (guidanceStep O σ s dpm st x t y ε).2.2.xOut
      = (guidanceStep O σ s dpm st x t y ε).2.1 := rfl

/-- Structural invariant of the guided loop: on a completed (non-aborted)
run, the logs record exactly the given timesteps in order, the trajectory
states chain without interference, each log's fed image and produced state
come from the step's own formulas, each log passed the staleness check
against the snapshot, each step read the given frozen denoiser parameters,
and the final trajectory state is the last produced state. -/
theorem runSteps_spec (O : Oracles) (σ : Sched) (strength : ℚ)
    (snapshot : List Tensor) (dpm : List Tensor) (y : Tensor)
    (gN : ℕ → Tensor) :
    ∀ (ts : List ℕ) (st : SegState) (x : Tensor) (st' : SegState)
      (x' : Tensor) (logs : List StepLog),
      runSteps O σ strength snapshot dpm y gN st x ts
        = Except.ok (st', x', logs) →
      logs.map StepLog.t = ts
      ∧ chainB x logs = true
      ∧ (∀ l ∈ logs,
          l.x0fed = clampT 0 1 (reverse_skip O σ dpm l.xIn l.t)
          ∧ l.xOut = addT (addT l.mean l.grad) (smulT l.std l.epsUsed)
          ∧ allDifferB l.paramsAfter snapshot = true
          ∧ l.dpmUsed = dpm)
      ∧ x' = (logs.map StepLog.xOut).getLastD x := by
  intro ts
  induction ts with
  | nil =>
      intro st x st' x' logs h
      simp only [runSteps] at h
      cases h
      refine ⟨rfl, rfl, ?_, rfl⟩
      intro l hl
      cases hl
  | cons t ts ih =>
      intro st x st' x' logs h
      simp only [runSteps] at h
      split at h
      · rename_i hc
        cases hrec : runSteps O σ strength snapshot dpm y gN
            (guidanceStep O σ strength dpm st x t y (gN t)).1
            (guidanceStep O σ strength dpm st x t y (gN t)).2.1 ts with
        | error e => rw [hrec] at h; cases h
        | ok trip =>
            obtain ⟨st'', x'', ls⟩ := trip
            rw [hrec] at h
            cases h
            obtain ⟨ht, hchain, hall, hlast⟩ := ih _ _ _ _ _ hrec
            refine ⟨?_, ?_, ?_, ?_⟩
            · simp [ht, guidanceStep_log_t]
            · simp only [chainB, Bool.and_eq_true, decide_eq_true_eq]
              exact ⟨guidanceStep_log_xIn O σ strength dpm st x t y (gN t),
                by rw [guidanceStep_log_xOut]; exact hchain⟩
            · intro l hl
              rcases List.mem_cons.mp hl with rfl | hl'
              · refine ⟨?_, ?_, ?_, ?_⟩
                · rw [guidanceStep_log_xIn, guidanceStep_log_t]
                  exact guidanceStep_log_x0fed O σ strength dpm st x t y (gN t)
                · exact guidanceStep_log_formula O σ strength dpm st x t y (gN t)
                · rw [guidanceStep_log_paramsAfter]; exact hc
                · exact guidanceStep_log_dpmUsed O σ strength dpm st x t y (gN t)
              · exact hall l hl'
            · rw [List.map_cons, List.getLastD_cons, hlast,
                guidanceStep_log_xOut]
      · cases h

/-- The reversed `range(0, T)[::-1]` iteration order, in closed form. -/
theorem range_reverse_eq_map (n : ℕ) :
    (List.range n).reverse = (List.range n).map (fun i => n - 1 - i) := by
  conv_lhs => rw [List.range_eq_range']
  rw [List.reverse_range']
  simp

theorem betafun_le_betafun (σ : Sched) (h1 : σ.betaStart < σ.betaEnd) :
    ∀ i j : ℕ, i ≤ j → j < σ.T → betafun σ i ≤ betafun σ j := by
  intro i j hij hj
  match hT : σ.T, hj with
  | 1, hj =>
      interval_cases j
      interval_cases i
      exact le_refl _
  | (n + 2), hj =>
      have hden : (0 : ℚ) < ((n + 2 : ℕ) : ℚ) - 1 := by
        push_cast; linarith
      have hslope : (0 : ℚ) ≤ (σ.betaEnd - σ.betaStart) / (((n + 2 : ℕ) : ℚ) - 1) :=
        div_nonneg (by linarith) (le_of_lt hden)
      unfold betafun
      rw [hT]
      exact add_le_add_left
        (mul_le_mul_of_nonneg_right (by exact_mod_cast hij) hslope) _

theorem betafun_zero (σ : Sched) : betafun σ 0 = σ.betaStart := by
  simp [betafun]

theorem betafun_last (σ : Sched) (h : 2 ≤ σ.T) :
    betafun σ (σ.T - 1) = σ.betaEnd := by
  have h1 : 1 ≤ σ.T := le_trans (by norm_num) h
  have hcast : ((σ.T - 1 : ℕ) : ℚ) = (σ.T : ℚ) - 1 := by
    push_cast [h1]; ring
  have hne : ((σ.T : ℚ) - 1) ≠ 0 := by
    have : (2 : ℚ) ≤ (σ.T : ℚ) := by exact_mod_cast h
    intro hz; rw [sub_eq_zero] at hz; rw [hz] at this; norm_num at this
  unfold betafun
  rw [hcast, mul_comm, div_mul_cancel₀ _ hne]
  ring

theorem betafun_bounds (σ : Sched) (h0 : 0 < σ.betaStart)
    (h1 : σ.betaStart < σ.betaEnd) (h2 : σ.betaEnd < 1) :
    ∀ i : ℕ, i < σ.T → 0 < betafun σ i ∧ betafun σ i < 1 := by
  intro i hi
  have hT1 : 1 ≤ σ.T := Nat.one_le_of_lt (Nat.lt_of_le_of_lt (Nat.zero_le i) hi)
  have hlow : σ.betaStart ≤ betafun σ i := by
    have := betafun_le_betafun σ h1 0 i (Nat.zero_le i) hi
    rwa [betafun_zero] at this
  have hup : betafun σ i ≤ σ.betaEnd := by
    rcases Nat.lt_or_ge σ.T 2 with hT | hT
    · have : σ.T = 1 := le_antisymm (Nat.lt_succ_iff.mp hT) hT1
      have hi0 : i = 0 := by omega
      rw [hi0, betafun_zero]; exact le_of_lt h1
    · have hle : i ≤ σ.T - 1 := by omega
      have := betafun_le_betafun σ h1 i (σ.T - 1) hle (by omega)
      rwa [betafun_last σ hT] at this
  exact ⟨lt_of_lt_of_le h0 hlow, lt_of_le_of_lt hup h2⟩

theorem alphaBar_pos (σ : Sched) (h0 : 0 < σ.betaStart)
    (h1 : σ.betaStart < σ.betaEnd) (h2 : σ.betaEnd < 1) :
    ∀ t : ℕ, t < σ.T → 0 < alphaBar σ t := by
  intro t
  induction t with
  | zero =>
      intro ht
      have := (betafun_bounds σ h0 h1 h2 0 ht).2
      unfold alphaBar
      linarith
  | succ t ih =>
      intro ht
      have hb := (betafun_bounds σ h0 h1 h2 (t + 1) ht).2
      have hprev := ih (Nat.lt_of_succ_lt ht)
      unfold alphaBar
      exact mul_pos hprev (by linarith)

theorem alphaBar_strict_anti (σ : Sched) (h0 : 0 < σ.betaStart)
    (h1 : σ.betaStart < σ.betaEnd) (h2 : σ.betaEnd < 1) :
    ∀ t : ℕ, t + 1 < σ.T → alphaBar σ (t + 1) < alphaBar σ t := by
  intro t ht
  have hpos := alphaBar_pos σ h0 h1 h2 t (Nat.lt_of_succ_lt ht)
  have hb := (betafun_bounds σ h0 h1 h2 (t + 1) ht).1
  have : alphaBar σ (t + 1) = alphaBar σ t * (1 - betafun σ (t + 1)) := rfl
  rw [this]
  exact mul_lt_of_lt_one_right hpos (by linarith)

theorem alphaBar_last_pos (σ : Sched) (h0 : 0 < σ.betaStart)
    (h1 : σ.betaStart < σ.betaEnd) (h2 : σ.betaEnd < 1) :
    0 < alphaBar σ (σ.T - 1) := by
  cases hT : σ.T with
  | zero =>
      have : alphaBar σ 0 = 1 - σ.betaStart := by
        unfold alphaBar; rw [betafun_zero]
      simp only [hT, Nat.zero_sub, this]
      linarith
  | succ n =>
      have hlt : n + 1 - 1 < σ.T := by omega
      exact alphaBar_pos σ h0 h1 h2 (n + 1 - 1) hlt

deriving instance DecidableEq for Except

/-- Whether a fallible step result is a success. -/
def isOkB : Except TrainError (SegState × Tensor × StepLog) → Bool
  | Except.ok _ => true
  | Except.error _ => false

/-- A length-one zero tensor, used for concrete instances. -/
def pZero : Tensor := Tensor.mk [1] [0]

/-- A length-one unit tensor, used for concrete instances. -/
def pOne : Tensor := Tensor.mk [1] [1]

/-- A concrete, fully computable oracle bundle used to instantiate the
embedding at small inputs: identity-like networks and gradients, an
increment optimizer, and the identity in place of the square root. -/
def oracleW : Oracles where
  den := fun _ x _ => x
  lossFn := fun _ _ _ => 0
  gradTheta := fun p _ _ => p
  gradX := fun _ x _ => x
  optStep := fun p _ => p.map (mapT (fun v => v + 1))
  sqrtA := fun q => q

/-- A small schedule instance with a single timestep. -/
def schedW : Sched := ⟨1/2, 3/4, 1⟩

/-- A concrete training example built from the zero tensor. -/
def exampleW : Example :=
  { y := pZero, xT := pZero, uncNoise := fun _ => pZero,
    gNoise := fun _ => pZero }

/-- A concrete training state with one segmentation parameter tensor. -/
def stateW : TrainState := ⟨[], ⟨[pZero], [pZero]⟩⟩

/-- C1: for every guided timestep, the next trajectory state is
`x_{t-1} = (mean + gradient) + std * noise` where `(mean, std, noise)` is the
result of the single `reverse_sample_typeII` call at `(x_t, t)` and
`gradient` is `-strength` times the loss gradient taken with respect to the
fresh detached leaf copy of the clamped clean-image estimate (evaluated at
the already-updated segmentation parameters).  In this value-level embedding
the detached leaf is exactly the value of the clamped estimate, and the
gradient is a function of that value, the updated parameters and the labels
only, so nothing of it reaches the earlier forward pass or the diffusion
history (trainer lines 110-123). -/
theorem guided_update_formula (O : Oracles) (σ : Sched) (s : ℚ)
    (dpm : List Tensor) (st : SegState) (x : Tensor) (t : ℕ) (y ε : Tensor) :
    (guidanceStep O σ s dpm st x t y ε).2.1
      = addT
          (addT (reverse_sample_typeII σ O dpm x t ε).1
            (smulT (-s)
              (O.gradX
                (O.optStep st.params
                  (addG (zerosLike st.params)
                    (O.gradTheta st.params
                      (clampT 0 1 (reverse_skip O σ dpm x t)) y)))
                (clampT 0 1 (reverse_skip O σ dpm x t)) y)))
          (smulT (reverse_sample_typeII σ O dpm x t ε).2.1
            (reverse_sample_typeII σ O dpm x t ε).2.2) := rfl

/-- C2: `reverse_sample_typeII` invoked at timestep `t = 0` returns
`std = 0` for every input, denoiser and schedule: the posterior variance
`beta_tilde[0]` vanishes under the `alpha_bar[-1] = 1` convention, and the
float square root of `0` is exactly `0`. -/
theorem typeII_std_zero_at_terminal (σ : Sched) (O : Oracles)
    (dpm : List Tensor) (x ε : Tensor) (h : O.sqrtA 0 = 0) :
    (reverse_sample_typeII σ O dpm x 0 ε).2.1 = 0 := by
  have hbt : betaTilde σ 0 = 0 := by
    unfold betaTilde alphaBarPrev
    simp
  show posteriorStd O σ 0 = 0
  rw [posteriorStd, hbt, h]

/-- Witness for C2 at a concrete schedule, oracle bundle and input. -/
theorem typeII_std_zero_at_terminal_witness :
    oracleW.sqrtA 0 = 0
    ∧ (reverse_sample_typeII schedW oracleW [] pZero 0 pOne).2.1 = 0 :=
  ⟨rfl, typeII_std_zero_at_terminal schedW oracleW [] pZero pOne rfl⟩

/-- C6 counterexample: at a concrete input whose label map has spatial shape
`[3, 3]` while the trajectory state has spatial shape `[2, 2]`, the embedded
guided step does not fail with `ShapeMismatch` — it succeeds and advances the
state, because the source (trainer lines 91-127) performs no explicit shape
or finiteness validation at all. -/
theorem guidance_no_shape_check_counterexample :
    decide (spatialShape (Tensor.mk [1, 3, 3] (List.replicate 9 0))
      = spatialShape (Tensor.mk [1, 1, 2, 2] (List.replicate 4 0))) = false
    ∧ decide (guidanceStepE oracleW schedW 1 [] ⟨[pZero], [pZero]⟩
        (Tensor.mk [1, 1, 2, 2] (List.replicate 4 0)) 0
        (Tensor.mk [1, 3, 3] (List.replicate 9 0))
        (Tensor.mk [1, 1, 2, 2] (List.replicate 4 0))
        = Except.error TrainError.ShapeMismatch) = false
    ∧ isOkB (guidanceStepE oracleW schedW 1 [] ⟨[pZero], [pZero]⟩
        (Tensor.mk [1, 1, 2, 2] (List.replicate 4 0)) 0
        (Tensor.mk [1, 3, 3] (List.replicate 9 0))
        (Tensor.mk [1, 1, 2, 2] (List.replicate 4 0))) = true := by
  refine ⟨by decide, ?_, rfl⟩
  rfl

/-- C6 amended: the guided step performs no explicit `ShapeMismatch` or
`NonFiniteLoss` check: on every input — in particular on shape-mismatched
ones — it returns a successor state and parameter update rather than an
error; a shape disagreement could only surface as an implicit failure inside
the external loss collaborator, and non-finite values propagate unchecked. -/
theorem guidance_step_never_fails (O : Oracles) (σ : Sched) (s : ℚ)
    (dpm : List Tensor) (st : SegState) (x : Tensor) (t : ℕ) (y ε : Tensor) :
    isOkB (guidanceStepE O σ s dpm st x t y ε) = true := rfl

/-- Indexing into the reversed timestep list. -/
theorem range_reverse_getD (n i : ℕ) (h : i < n) :
    (List.range n).reverse.getD i 0 = n - 1 - i := by
  rw [range_reverse_eq_map, List.getD_eq_getElem?_getD, List.getElem?_map,
    List.getElem?_range h]
  rfl

/-- C3: on every completed trajectory the controller performs the single
unconditional full reverse pass (trainer line 83, recorded as the clamped
comparison image), then exactly `T` guided steps whose timesteps are
`range(0, T)[::-1]`, i.e. `T-1, T-2, ..., 0` — each consecutive timestep is
exactly one less, none skipped, repeated or reordered — and the terminal
state clamps the last trajectory state to `[-1, 1]` (trainer line 134). -/
theorem controller_schedule_of_steps (O : Oracles) (σ : Sched) (s : ℚ)
    (snapshot : List Tensor) (st : TrainState) (ex : Example)
    (hT : 0 < σ.T) :
    (processExample O σ s snapshot st ex).map (fun r => r.2.steps.map StepLog.t)
      = (processExample O σ s snapshot st ex).map
          (fun _ => (List.range σ.T).reverse)
    ∧ (processExample O σ s snapshot st ex).map (fun r => r.2.uncond)
      = (processExample O σ s snapshot st ex).map (fun _ =>
          clampT (-1) 1
            (reverse_iterate O σ st.dpmParams ex.uncNoise (σ.T - 1) ex.xT))
    ∧ (processExample O σ s snapshot st ex).map (fun r =>
          decide (r.2.final
            = clampT (-1) 1 ((r.2.steps.map StepLog.xOut).getLastD ex.xT)))
      = (processExample O σ s snapshot st ex).map (fun _ => true)
    ∧ (List.range σ.T).reverse.length = σ.T
    ∧ (List.range σ.T).reverse.head? = some (σ.T - 1)
    ∧ (List.range σ.T).reverse.getLast? = some 0
    ∧ (∀ i : ℕ, i + 1 < σ.T →
        (List.range σ.T).reverse.getD i 0
          = (List.range σ.T).reverse.getD (i + 1) 0 + 1) := by
  have hmaps :
      (processExample O σ s snapshot st ex).map (fun r => r.2.steps.map StepLog.t)
        = (processExample O σ s snapshot st ex).map
            (fun _ => (List.range σ.T).reverse)
      ∧ (processExample O σ s snapshot st ex).map (fun r => r.2.uncond)
        = (processExample O σ s snapshot st ex).map (fun _ =>
            clampT (-1) 1
              (reverse_iterate O σ st.dpmParams ex.uncNoise (σ.T - 1) ex.xT))
      ∧ (processExample O σ s snapshot st ex).map (fun r =>
            decide (r.2.final
              = clampT (-1) 1 ((r.2.steps.map StepLog.xOut).getLastD ex.xT)))
        = (processExample O σ s snapshot st ex).map (fun _ => true) := by
    unfold processExample
    cases hR : runSteps O σ s snapshot st.dpmParams ex.y ex.gNoise st.seg
        ex.xT ((List.range σ.T).reverse) with
    | error e => exact ⟨rfl, rfl, rfl⟩
    | ok trip =>
        obtain ⟨seg', xFin, logs⟩ := trip
        obtain ⟨hmap, hchain, hall, hlast⟩ :=
          runSteps_spec O σ s snapshot st.dpmParams ex.y ex.gNoise
            ((List.range σ.T).reverse) st.seg ex.xT seg' xFin logs hR
        refine ⟨?_, rfl, ?_⟩
        · simp [Except.map, hmap]
        · simp [Except.map, hlast]
  refine ⟨hmaps.1, hmaps.2.1, hmaps.2.2, by simp, ?_, ?_, ?_⟩
  · obtain ⟨n, hn⟩ := Nat.exists_eq_succ_of_ne_zero (Nat.pos_iff_ne_zero.mp hT)
    rw [hn, List.range_succ]
    simp
  · obtain ⟨n, hn⟩ := Nat.exists_eq_succ_of_ne_zero (Nat.pos_iff_ne_zero.mp hT)
    rw [List.getLast?_reverse, hn, List.range_succ_eq_map]
    rfl
  · intro i hi
    rw [range_reverse_getD σ.T i (by omega), range_reverse_getD σ.T (i + 1) hi]
    omega

/-- Witness for C3 at a concrete one-timestep configuration. -/
theorem controller_schedule_of_steps_witness :
    0 < schedW.T
    ∧ (processExample oracleW schedW 1 [] stateW exampleW).map
        (fun r => r.2.steps.map StepLog.t)
      = (processExample oracleW schedW 1 [] stateW exampleW).map
          (fun _ => (List.range schedW.T).reverse) :=
  ⟨by decide,
    (controller_schedule_of_steps oracleW schedW 1 [] stateW exampleW
      (by decide)).1⟩

/-- C5: on every completed trajectory, the value range is constrained only at
the three designated checkpoints: the unconditional estimate lies in
`[-1, 1]` (clamped at trainer line 84), every per-step clean-image estimate
fed to the segmentation network lies in `[0, 1]` (clamped at line 97), and
the final conditional output lies in `[-1, 1]` (clamped at line 134) and is
the clamp of the last raw trajectory state; the trajectory state itself is
never clamped: every produced state is exactly the unclamped
`(mean + gradient) + std * noise`, and each step consumes exactly the raw
state produced by its predecessor (the chain check), starting from the
sampled `x_T`. -/
theorem clamp_checkpoints_only (O : Oracles) (σ : Sched) (s : ℚ)
    (snapshot : List Tensor) (st : TrainState) (ex : Example) :
    (processExample O σ s snapshot st ex).map (fun r =>
        (inRangeB (-1) 1 r.2.uncond,
         r.2.steps.all (fun l => inRangeB 0 1 l.x0fed),
         inRangeB (-1) 1 r.2.final,
         chainB r.2.xT r.2.steps,
         r.2.steps.all (fun l =>
           decide (l.xOut = addT (addT l.mean l.grad) (smulT l.std l.epsUsed))),
         decide (r.2.final
           = clampT (-1) 1 ((r.2.steps.map StepLog.xOut).getLastD r.2.xT))))
      = (processExample O σ s snapshot st ex).map (fun _ =>
          (true, true, true, true, true, true)) := by
  unfold processExample
  cases hR : runSteps O σ s snapshot st.dpmParams ex.y ex.gNoise st.seg
      ex.xT ((List.range σ.T).reverse) with
  | error e => rfl
  | ok trip =>
      obtain ⟨seg', xFin, logs⟩ := trip
      obtain ⟨hmap, hchain, hall, hlast⟩ :=
        runSteps_spec O σ s snapshot st.dpmParams ex.y ex.gNoise
          ((List.range σ.T).reverse) st.seg ex.xT seg' xFin logs hR
      simp only [Except.map, Except.ok.injEq, Prod.mk.injEq]
      refine ⟨inRangeB_clampT (by norm_num) _, ?_, inRangeB_clampT (by norm_num) _,
        hchain, ?_, ?_⟩
      · rw [List.all_eq_true]
        intro l hl
        rw [(hall l hl).1]
        exact inRangeB_clampT (by norm_num) _
      · rw [List.all_eq_true]
        intro l hl
        exact decide_eq_true (hall l hl).2.1
      · exact decide_eq_true (by rw [hlast])

/-- C9: on every trajectory, the unconditional reverse pass and the guided
trajectory start from the same standard-Gaussian draw: the recorded
unconditional estimate is `reverse_iterate` applied to the example's `x_T`
(trainer lines 79-83), and the first guided step consumes that same `x_T`
(line 96 with the loop entry state); the embedding is pure, so
`reverse_iterate` cannot mutate its input. -/
theorem shared_initial_noise (O : Oracles) (σ : Sched) (s : ℚ)
    (snapshot : List Tensor) (st : TrainState) (ex : Example)
    (hT : 0 < σ.T) :
    (processExample O σ s snapshot st ex).map (fun r =>
        (r.2.uncond, r.2.steps.head?.map StepLog.xIn))
      = (processExample O σ s snapshot st ex).map (fun _ =>
          (clampT (-1) 1
            (reverse_iterate O σ st.dpmParams ex.uncNoise (σ.T - 1) ex.xT),
           some ex.xT)) := by
  unfold processExample
  cases hR : runSteps O σ s snapshot st.dpmParams ex.y ex.gNoise st.seg
      ex.xT ((List.range σ.T).reverse) with
  | error e => rfl
  | ok trip =>
      obtain ⟨seg', xFin, logs⟩ := trip
      obtain ⟨hmap, hchain, hall, hlast⟩ :=
        runSteps_spec O σ s snapshot st.dpmParams ex.y ex.gNoise
          ((List.range σ.T).reverse) st.seg ex.xT seg' xFin logs hR
      have hlen : logs.length = σ.T := by
        have := congrArg List.length hmap
        simpa using this
      cases logs with
      | nil => rw [List.length_nil] at hlen; omega
      | cons l ls =>
          simp only [chainB, Bool.and_eq_true, decide_eq_true_eq] at hchain
          simp [Except.map, List.head?, hchain.1]

/-- Witness for C9 at a concrete one-timestep configuration. -/
theorem shared_initial_noise_witness :
    0 < schedW.T
    ∧ (processExample oracleW schedW 1 [] stateW exampleW).map (fun r =>
          (r.2.uncond, r.2.steps.head?.map StepLog.xIn))
      = (processExample oracleW schedW 1 [] stateW exampleW).map (fun _ =>
          (clampT (-1) 1
            (reverse_iterate oracleW schedW stateW.dpmParams
              exampleW.uncNoise (schedW.T - 1) exampleW.xT),
           some exampleW.xT)) :=
  ⟨by decide,
    shared_initial_noise oracleW schedW 1 [] stateW exampleW (by decide)⟩

/-- Facts carried by one completed trajectory: the frozen denoiser parameters
are threaded unchanged and were the ones every step read, and every recorded
step passed the staleness check against the global snapshot. -/
theorem processExample_facts (O : Oracles) (σ : Sched) (s : ℚ)
    (snap : List Tensor) (st : TrainState) (ex : Example)
    (st2 : TrainState) (lg : ExLog)
    (h : processExample O σ s snap st ex = Except.ok (st2, lg)) :
    st2.dpmParams = st.dpmParams
    ∧ ∀ l ∈ lg.steps,
        allDifferB l.paramsAfter snap = true ∧ l.dpmUsed = st.dpmParams := by
  unfold processExample at h
  cases hR : runSteps O σ s snap st.dpmParams ex.y ex.gNoise st.seg
      ex.xT ((List.range σ.T).reverse) with
  | error e => rw [hR] at h; cases h
  | ok trip =>
      obtain ⟨seg', xFin, logs⟩ := trip
      rw [hR] at h
      cases h
      obtain ⟨hmap, hchain, hall, hlast⟩ :=
        runSteps_spec O σ s snap st.dpmParams ex.y ex.gNoise
          ((List.range σ.T).reverse) st.seg ex.xT seg' xFin logs hR
      exact ⟨rfl, fun l hl => ⟨(hall l hl).2.2.1, (hall l hl).2.2.2⟩⟩

/-- The trajectory facts lifted over the inner data loop. -/
theorem runExamples_facts (O : Oracles) (σ : Sched) (s : ℚ)
    (snap : List Tensor) :
    ∀ (exs : List Example) (st st2 : TrainState) (lgs : List ExLog),
      runExamples O σ s snap st exs = Except.ok (st2, lgs) →
      st2.dpmParams = st.dpmParams
      ∧ ∀ lg ∈ lgs, ∀ l ∈ lg.steps,
          allDifferB l.paramsAfter snap = true ∧ l.dpmUsed = st.dpmParams := by
  intro exs
  induction exs with
  | nil =>
      intro st st2 lgs h
      simp only [runExamples] at h
      cases h
      exact ⟨rfl, fun lg hlg => absurd hlg (List.not_mem_nil lg)⟩
  | cons ex exs ih =>
      intro st st2 lgs h
      simp only [runExamples] at h
      split at h
      · cases h
      · rename_i st1 lg1 hpe
        split at h
        · cases h
        · rename_i st3 lgs3 hre
          cases h
          obtain ⟨hdpm1, hsteps1⟩ := processExample_facts O σ s snap st ex st1 lg1 hpe
          obtain ⟨hdpm2, hsteps2⟩ := ih _ _ _ hre
          refine ⟨hdpm2.trans hdpm1, ?_⟩
          intro lg hlg
          rcases List.mem_cons.mp hlg with rfl | hlg'
          · exact hsteps1
          · intro l hl
            obtain ⟨ha, hd⟩ := hsteps2 lg hlg' l hl
            exact ⟨ha, hd.trans hdpm1⟩

/-- The trajectory facts lifted over the epoch loop. -/
theorem runEpochs_facts (O : Oracles) (σ : Sched) (s : ℚ)
    (snap : List Tensor) (data : List Example) :
    ∀ (n : ℕ) (st st2 : TrainState) (lgs : List ExLog),
      runEpochs O σ s snap data st n = Except.ok (st2, lgs) →
      st2.dpmParams = st.dpmParams
      ∧ ∀ lg ∈ lgs, ∀ l ∈ lg.steps,
          allDifferB l.paramsAfter snap = true ∧ l.dpmUsed = st.dpmParams := by
  intro n
  induction n with
  | zero =>
      intro st st2 lgs h
      simp only [runEpochs] at h
      cases h
      exact ⟨rfl, fun lg hlg => absurd hlg (List.not_mem_nil lg)⟩
  | succ n ih =>
      intro st st2 lgs h
      simp only [runEpochs] at h
      split at h
      · cases h
      · rename_i st1 lgs1 hre
        split at h
        · cases h
        · rename_i st3 lgs3 hep
          cases h
          obtain ⟨hdpm1, hsteps1⟩ := runExamples_facts O σ s snap data st st1 lgs1 hre
          obtain ⟨hdpm2, hsteps2⟩ := ih _ _ _ hep
          refine ⟨hdpm2.trans hdpm1, ?_⟩
          intro lg hlg
          rcases List.mem_append.mp hlg with hlg' | hlg'
          · exact hsteps1 lg hlg'
          · intro l hl
            obtain ⟨ha, hd⟩ := hsteps2 lg hlg' l hl
            exact ⟨ha, hd.trans hdpm1⟩

/-- C4 amended: after every guided step's optimizer update, every parameter
tensor of the segmentation network differs from the snapshot taken when the
segmentation model was loaded — before the first update of the entire
training run, not of the current trajectory (trainer line 57) — and this is
what the per-timestep assertion at trainer lines 130-131 enforces: every
recorded step of a completed run passed it. -/
theorem trajectory_staleness_check_global_baseline (O : Oracles) (σ : Sched)
    (s : ℚ) (nE : ℕ) (data : List Example) (st0 : TrainState) :
    (runTraining O σ s nE data st0).map (fun r =>
        r.2.all (fun lg => lg.steps.all
          (fun l => allDifferB l.paramsAfter st0.seg.params)))
      = (runTraining O σ s nE data st0).map (fun _ => true) := by
  unfold runTraining
  cases h : runEpochs O σ s st0.seg.params data st0 nE with
  | error e => rfl
  | ok pr =>
      obtain ⟨st2, lgs⟩ := pr
      obtain ⟨-, hsteps⟩ :=
        runEpochs_facts O σ s st0.seg.params data nE st0 st2 lgs h
      simp only [Except.map, Except.ok.injEq]
      rw [List.all_eq_true]
      intro lg hlg
      rw [List.all_eq_true]
      intro l hl
      exact (hsteps lg hlg l hl).1

/-- C8: the frozen generative denoiser's parameters are never mutated by the
training loop: on every completed run, over all epochs, examples and guided
timesteps, the denoiser parameters each step read are the loaded initial
ones and the final state still carries them; the segmentation state is the
only network state the loop rewrites (trainer lines 39-40 freeze the model
and the optimizer at line 66 owns only the segmentation parameters). -/
theorem frozen_denoiser_params (O : Oracles) (σ : Sched) (s : ℚ) (nE : ℕ)
    (data : List Example) (st0 : TrainState) :
    (runTraining O σ s nE data st0).map (fun r =>
        (decide (r.1.dpmParams = st0.dpmParams),
         r.2.all (fun lg => lg.steps.all
           (fun l => decide (l.dpmUsed = st0.dpmParams)))))
      = (runTraining O σ s nE data st0).map (fun _ => (true, true)) := by
  unfold runTraining
  cases h : runEpochs O σ s st0.seg.params data st0 nE with
  | error e => rfl
  | ok pr =>
      obtain ⟨st2, lgs⟩ := pr
      obtain ⟨hdpm, hsteps⟩ :=
        runEpochs_facts O σ s st0.seg.params data nE st0 st2 lgs h
      simp only [Except.map, Except.ok.injEq, Prod.mk.injEq]
      refine ⟨decide_eq_true hdpm, ?_⟩
      rw [List.all_eq_true]
      intro lg hlg
      rw [List.all_eq_true]
      intro l hl
      exact decide_eq_true (hsteps lg hlg l hl).2

/-- A concrete oracle bundle whose optimizer rewrites every parameter entry
to `1`: the first update moves the parameters away from the loaded values and
every later update leaves them fixed. -/
def oracleCx : Oracles where
  den := fun _ x _ => x
  lossFn := fun _ _ _ => 0
  gradTheta := fun p _ _ => p
  gradX := fun _ x _ => x
  optStep := fun p _ => p.map (mapT (fun _ => 1))
  sqrtA := fun q => q

/-- C4 counterexample: a concrete two-example run (one epoch, one timestep
each) completes without any `StalledUpdate` error, yet in the second
trajectory the parameters after its only optimizer update are exactly the
parameters the trajectory started with — the claimed postcondition "every
parameter differs from its value before the first update of the trajectory"
is false there.  The per-timestep assertion (trainer lines 130-131) compares
against the snapshot taken at model-load time (line 57), not against the
current trajectory's starting parameters, so it passes. -/
theorem trajectory_staleness_claim_counterexample :
    (runTraining oracleCx schedW 1 1 [exampleW, exampleW] stateW).map
        (fun r => r.2.map (fun lg =>
          (lg.startParams, lg.steps.map StepLog.paramsAfter)))
      = Except.ok [([pZero], [[pOne]]), ([pOne], [[pOne]])]
    ∧ allDifferB [pOne] [pOne] = false := by
  exact ⟨by decide, by decide⟩

/-- C7: for every schedule with `0 < beta_start < beta_end < 1`, the linear
policy of `get_beta_schedule` yields the length-`T` linear interpolation, its
`beta` sequence is non-decreasing with every entry in `(0, 1)`, the derived
`alpha_bar` is strictly decreasing with `alpha_bar[0] = 1 - beta[0]`, and
`alpha_bar[T-1] > 0`. -/
theorem linear_schedule_properties (σ : Sched) (h0 : 0 < σ.betaStart)
    (h1 : σ.betaStart < σ.betaEnd) (h2 : σ.betaEnd < 1) :
    get_beta_schedule "linear" σ.betaStart σ.betaEnd σ.T
      = Except.ok ((List.range σ.T).map (betafun σ))
    ∧ (∀ i j : ℕ, i ≤ j → j < σ.T → betafun σ i ≤ betafun σ j)
    ∧ (∀ i : ℕ, i < σ.T → 0 < betafun σ i ∧ betafun σ i < 1)
    ∧ (∀ t : ℕ, t + 1 < σ.T → alphaBar σ (t + 1) < alphaBar σ t)
    ∧ alphaBar σ 0 = 1 - betafun σ 0
    ∧ 0 < alphaBar σ (σ.T - 1) :=
  ⟨rfl, betafun_le_betafun σ h1, betafun_bounds σ h0 h1 h2,
    alphaBar_strict_anti σ h0 h1 h2, rfl, alphaBar_last_pos σ h0 h1 h2⟩

/-- Witness for C7 at the source configuration
`beta_start = 1e-4, beta_end = 2e-2, T = 300`. -/
theorem linear_schedule_properties_witness :
    ((0 : ℚ) < 1/10000 ∧ (1/10000 : ℚ) < 1/50 ∧ (1/50 : ℚ) < 1)
    ∧ 0 < alphaBar ⟨1/10000, 1/50, 300⟩ (300 - 1) :=
  ⟨⟨by norm_num, by norm_num, by norm_num⟩,
    (linear_schedule_properties ⟨1/10000, 1/50, 300⟩ (by norm_num)
      (by norm_num) (by norm_num)).2.2.2.2.2⟩

/-- Two tensors agree in shape (both the dimension list and the flattened
length). -/
def sameShape (a b : Tensor) : Prop :=
  a.shape = b.shape ∧ a.data.length = b.data.length

instance (a b : Tensor) : Decidable (sameShape a b) := by
  unfold sameShape; infer_instance

/-- Two parameter lists agree elementwise in shape. -/
def sameShapesL (ps qs : List Tensor) : Prop :=
  ps.length = qs.length ∧ ∀ pq ∈ ps.zip qs, sameShape pq.1 pq.2

instance (ps qs : List Tensor) : Decidable (sameShapesL ps qs) := by
  unfold sameShapesL; infer_instance

theorem zipWith_zero_add : ∀ (l1 l2 : List ℚ), l1.length = l2.length →
    List.zipWith (· + ·) (l1.map fun _ => (0 : ℚ)) l2 = l2 := by
  intro l1
  induction l1 with
  | nil =>
      intro l2 h
      rw [List.length_nil] at h
      rw [List.length_eq_zero.mp h.symm]
      rfl
  | cons a l1 ih =>
      intro l2 h
      cases l2 with
      | nil => simp at h
      | cons b l2 =>
          simp only [List.map_cons, List.zipWith_cons_cons, zero_add]
          rw [ih l2 (by simpa using h)]

theorem addT_zeros (a b : Tensor) (h : sameShape a b) :
    addT (mapT (fun _ => 0) a) b = b := by
  obtain ⟨sa, da⟩ := a
  obtain ⟨sb, db⟩ := b
  obtain ⟨hs, hl⟩ := h
  simp only [addT, zipT, mapT, Tensor.mk.injEq]
  exact ⟨hs, zipWith_zero_add da db hl⟩

theorem addG_zerosLike : ∀ (ps qs : List Tensor), sameShapesL ps qs →
    addG (zerosLike ps) qs = qs := by
  intro ps
  induction ps with
  | nil =>
      intro qs h
      obtain ⟨hlen, -⟩ := h
      cases qs with
      | nil => rfl
      | cons b qs => simp at hlen
  | cons a ps ih =>
      intro qs h
      obtain ⟨hlen, hmem⟩ := h
      cases qs with
      | nil => simp at hlen
      | cons b qs =>
          show addT (mapT (fun _ => 0) a) b :: addG (zerosLike ps) qs = b :: qs
          rw [addT_zeros a b (hmem (a, b) (by simp [List.zip_cons_cons])),
            ih qs ⟨by simpa using hlen,
              fun pq hpq => hmem pq (by
                rw [List.zip_cons_cons]
                exact List.mem_cons_of_mem _ hpq)⟩]

theorem guidanceStep_params (O : Oracles) (σ : Sched) (s : ℚ)
    (dpm : List Tensor) (st : SegState) (x : Tensor) (t : ℕ) (y ε : Tensor) :
    (guidanceStep O σ s dpm st x t y ε).1.params
      = O.optStep st.params (addG (zerosLike st.params)
          (O.gradTheta st.params (clampT 0 1 (reverse_skip O σ dpm x t)) y)) :=
  rfl

theorem guidanceStep_gradBuf (O : Oracles) (σ : Sched) (s : ℚ)
    (dpm : List Tensor) (st : SegState) (x : Tensor) (t : ℕ) (y ε : Tensor) :
    (guidanceStep O σ s dpm st x t y ε).1.gradBuf
      = addG (zerosLike st.params)
          (O.gradTheta st.params (clampT 0 1 (reverse_skip O σ dpm x t)) y) :=
  rfl

/-- C10: within one guided step the segmentation parameters are mutated only
by the step's single optimizer update.  The gradient buffers are zeroed at
the start of the timestep (`optimizer.zero_grad()`, trainer line 91), so the
whole step is independent of whatever gradients were left in the buffers, and
the single update consumes exactly the current timestep's loss gradient; the
subsequent detached guidance-gradient computation (`torch.autograd.grad` on
the leaf copy, line 115) changes neither the parameters nor the buffers: the
step's final parameters and buffers are exactly the post-update values. -/
theorem per_step_param_mutation (O : Oracles) (σ : Sched) (s : ℚ)
    (dpm : List Tensor) (p b b' : List Tensor) (x : Tensor) (t : ℕ)
    (y ε : Tensor)
    (h : sameShapesL p
      (O.gradTheta p (clampT 0 1 (reverse_skip O σ dpm x t)) y)) :
    guidanceStep O σ s dpm ⟨p, b⟩ x t y ε
      = guidanceStep O σ s dpm ⟨p, b'⟩ x t y ε
    ∧ (guidanceStep O σ s dpm ⟨p, b⟩ x t y ε).1.params
        = O.optStep p (O.gradTheta p (clampT 0 1 (reverse_skip O σ dpm x t)) y)
    ∧ (guidanceStep O σ s dpm ⟨p, b⟩ x t y ε).1.gradBuf
        = O.gradTheta p (clampT 0 1 (reverse_skip O σ dpm x t)) y := by
  have hz := addG_zerosLike p
    (O.gradTheta p (clampT 0 1 (reverse_skip O σ dpm x t)) y) h
  refine ⟨rfl, ?_, ?_⟩
  · show O.optStep p (addG (zerosLike p)
        (O.gradTheta p (clampT 0 1 (reverse_skip O σ dpm x t)) y))
      = O.optStep p (O.gradTheta p (clampT 0 1 (reverse_skip O σ dpm x t)) y)
    rw [hz]
  · show addG (zerosLike p)
        (O.gradTheta p (clampT 0 1 (reverse_skip O σ dpm x t)) y)
      = O.gradTheta p (clampT 0 1 (reverse_skip O σ dpm x t)) y
    exact hz

/-- Witness for C10 at a concrete shape-compatible instance. -/
theorem per_step_param_mutation_witness :
    sameShapesL [pZero]
      (oracleW.gradTheta [pZero]
        (clampT 0 1 (reverse_skip oracleW schedW [] pZero 0)) pZero)
    ∧ (guidanceStep oracleW schedW 1 [] ⟨[pZero], [pOne]⟩ pZero 0 pZero
        pZero).1.params
      = oracleW.optStep [pZero]
          (oracleW.gradTheta [pZero]
            (clampT 0 1 (reverse_skip oracleW schedW [] pZero 0)) pZero) :=
  ⟨by decide,
    (per_step_param_mutation oracleW schedW 1 [] [pZero] [pOne] [pOne]
      pZero 0 pZero pZero (by decide)).2.1⟩
